import Mathlib

/-!
Verification of the Pino_demo logging utility.

Shallow embedding of the repository's core logging code:
* `src/utils/pino_util.js` — metadata validation, logger-method wrapping,
  configuration validation, transport configuration, logger options;
* `src/helper/compress_transport-stream-worker.js` — the buffering flush
  worker (message/timer/write-completion event loop);
* the rotating sink's retention policy and the redaction filter, which live
  in external libraries and are modelled from the specification.
-/

namespace PinoDemo

/-! ### JavaScript value model

A small model of JS runtime values, enough to embed the dynamic checks the
source performs (`!x` truthiness, `typeof`, `Array.isArray`, `key in obj`,
property access). Objects are association lists of own properties.
-/

inductive JsVal where
  | undefined
  | null
  | boolean (b : Bool)
  | num (n : Int)
  | str (s : String)
  | obj (entries : List (String × JsVal))
  | arr (elems : List JsVal)

/-- JS truthiness: `!v` in the source is `truthy v = false`. -/
def truthy : JsVal → Bool
  | .undefined => false
  | .null => false
  | .boolean b => b
  | .num n => n != 0
  | .str s => s != ""
  | .obj _ => true
  | .arr _ => true

/-- The JS `typeof` operator (`typeof null` is "object", as in JS). -/
def jsTypeof : JsVal → String
  | .undefined => "undefined"
  | .null => "object"
  | .boolean _ => "boolean"
  | .num _ => "number"
  | .str _ => "string"
  | .obj _ => "object"
  | .arr _ => "object"

/-- `Array.isArray`. -/
def isArray : JsVal → Bool
  | .arr _ => true
  | _ => false

/-- Own-property access `v[k]`; absent keys give `undefined`.  Arrays expose
`length` and their index keys. -/
def getProp (v : JsVal) (k : String) : JsVal :=
  match v with
  | .obj entries =>
      match entries.lookup k with
      | some w => w
      | none => .undefined
  | .arr elems =>
      if k = "length" then .num elems.length else .undefined
  | _ => .undefined

/-- The JS `k in v` operator on own properties (arrays expose `length` and
their index keys). -/
def hasKey (v : JsVal) (k : String) : Bool :=
  match v with
  | .obj entries => (entries.lookup k).isSome
  | .arr elems => k = "length" || (List.range elems.length).any (fun i => k = toString i)
  | _ => false

/-! ### Metadata validation (`validateMetadata`, src/utils/pino_util.js:25-47)

The logger schema `Loggers` (loggers.json) maps a logger key to its
configuration; `validateMetadata` reads `schema[loggerKey]?.["required"]?.[method] || []`.
We embed the `required` table as an association list
loggerKey → (method → required field names). -/

def Schema : Type := List (String × List (String × List String))

/-- `schema[loggerKey]?.["required"]?.[method] || []`. -/
def requiredOf (schema : Schema) (loggerKey method : String) : List String :=
  match schema.lookup loggerKey with
  | some levels => (levels.lookup method).getD []
  | none => []

/-- A thrown validation error: the message string exactly as the source
formats it, together with the list of field names it interpolates. -/
structure ValError where
  message : String
  listed : List String
deriving Repr, DecidableEq

/-- `validateMetadata` (src/utils/pino_util.js:25-47): if
`!metadata || typeof metadata !== "object"`, throw when the required list is
non-empty; otherwise throw when some required field is not `in metadata`. -/
def validateMetadata (loggerKey method : String) (schema : Schema)
    (metadata : JsVal) : Except ValError Unit :=
  let requiredFields := requiredOf schema loggerKey method
  if !truthy metadata || jsTypeof metadata != "object" then
    if requiredFields.length > 0 then
      .error ⟨"Missing required metadata for " ++ loggerKey ++ "." ++ method ++
        ". Required fields: " ++ String.intercalate ", " requiredFields,
        requiredFields⟩
    else .ok ()
  else
    let missingFields := requiredFields.filter (fun field => !hasKey metadata field)
    if missingFields.length > 0 then
      .error ⟨"Missing required fields for " ++ loggerKey ++ "." ++ method ++
        ": " ++ String.intercalate ", " missingFields, missingFields⟩
    else .ok ()

/-- Modelled from the spec: `validate(loggerKey, level, fields)` as §4.1 and
claim C1 word it — required `R` (empty if unspecified); if fields is absent
(null/undefined) or not an object, fail listing all of `R` unless `R` is
empty; otherwise fail listing `R` minus the keys present in fields, and
succeed when that difference is empty.  Used only to compare with
`validateMetadata`. -/
def validateAsSpec (loggerKey method : String) (schema : Schema)
    (metadata : JsVal) : Except (List String) Unit :=
  let R := requiredOf schema loggerKey method
  let absent : Bool :=
    match metadata with
    | .undefined => true
    | .null => true
    | _ => jsTypeof metadata != "object"
  if absent then
    if R.isEmpty then .ok () else .error R
  else
    let diff := R.filter (fun field => !hasKey metadata field)
    if diff.isEmpty then .ok () else .error diff

/-! ### Wrapped logger methods (`wrapLoggerMethod`, src/utils/pino_util.js:58-63)

`wrapLoggerMethod` returns `(metadata, msg, ...args) => { validateMetadata(...);
return originalMethod(metadata, msg, ...args); }`.  We record the outcome of a
call: either the validation error propagates to the caller, or the original
method is invoked with the given arguments.  `Outcome` also covers module
initialization (`process.exit`), so that one type shows which paths can exit
the process. -/

/-- A call to the underlying pino method, with the arguments it received. -/
structure DispatchCall where
  metadata : JsVal
  msg : String
  args : List JsVal

/-- Observable outcome of running a piece of the module: a runtime logger
call either raises or dispatches; initialization either yields the logger
keys or exits the process. -/
inductive Outcome where
  | raised (e : ValError)
  | dispatched (call : DispatchCall)
  | loggersReady (keys : List String)
  | exited (code : Nat)

/-- The body of the closure returned by `wrapLoggerMethod`
(src/utils/pino_util.js:59-62): validate, then call the original method with
the caller's arguments unchanged. -/
def wrappedCall (schema : Schema) (loggerKey method : String)
    (metadata : JsVal) (msg : String) (args : List JsVal) : Outcome :=
  match validateMetadata loggerKey method schema metadata with
  | .error e => .raised e
  | .ok _ => .dispatched ⟨metadata, msg, args⟩

/-- The list of methods wrapped by `wrapLogger` (src/utils/pino_util.js:74). -/
def wrapMethods : List String :=
  ["info", "warn", "error", "debug", "fatal", "trace"]

/-! ### Configuration validation and module initialization
(`validateLoggerConfig` src/utils/pino_util.js:94-110, `generateLoggers`
:203-224, module init :230-247) -/

/-- The per-entry check of `validateLoggerConfig`
(src/utils/pino_util.js:100-106): `typeof value !== "object" || !value.category`
throws; reading `.category` on `null` throws a TypeError (since
`typeof null === "object"`).  Returns the thrown message, if any. -/
def checkEntry (key : String) (value : JsVal) : Option String :=
  if jsTypeof value != "object" then
    some ("Invalid logger configuration for \"" ++ key ++ "\".")
  else
    match value with
    | .null => some "TypeError: Cannot read properties of null (reading 'category')"
    | _ =>
      if !truthy (getProp value "category") then
        some ("Invalid logger configuration for \"" ++ key ++ "\".")
      else none

/-- `Object.entries(config).forEach(...)` stops at the first throwing entry. -/
def firstEntryError : List (String × JsVal) → Option String
  | [] => none
  | (k, v) :: rest =>
    match checkEntry k v with
    | some m => some m
    | none => firstEntryError rest

/-- `validateLoggerConfig` (src/utils/pino_util.js:94-110). -/
def validateLoggerConfig (config : JsVal) : Except String JsVal :=
  if !truthy config || jsTypeof config != "object" || isArray config then
    .error "Invalid or missing `loggers.json` configuration."
  else
    match config with
    | .obj entries =>
      match firstEntryError entries with
      | some m => .error m
      | none => .ok config
    | _ => .ok config

/-- `generateLoggers` (src/utils/pino_util.js:203-224): validate the config,
then build one wrapped logger per entry, skipping entries with a falsy key,
falsy value, or falsy `category`; any thrown error is caught and re-thrown as
"Failed to generate loggers.".  Logger construction itself is modelled as
always succeeding; we record the created logger keys. -/
def generateLoggers (config : JsVal) : Except String (List String) :=
  match validateLoggerConfig config with
  | .error _ => .error "Failed to generate loggers."
  | .ok _ =>
    match config with
    | .obj entries =>
      .ok ((entries.filter (fun kv =>
        truthy (.str kv.1) && truthy kv.2 && truthy (getProp kv.2 "category"))).map
          (fun kv => kv.1))
    | _ => .ok []

/-- Module initialization (src/utils/pino_util.js:230-247): `generateLoggers`
in a `try`; on any error, `process.exit(1)`. -/
def initModule (config : JsVal) : Outcome :=
  match generateLoggers config with
  | .ok keys => .loggersReady keys
  | .error _ => .exited 1

/-- A configuration entry value that claim C7 calls malformed: not an object
(including `null`), or lacking a `category` property. -/
def BadEntryVal (v : JsVal) : Prop :=
  jsTypeof v ≠ "object" ∨ v = .null ∨ getProp v "category" = .undefined

/-- A logger configuration that claim C7 calls malformed: missing, not an
object, an array, or containing an entry with a `BadEntryVal` value. -/
def MalformedConfig (cfg : JsVal) : Prop :=
  cfg = .undefined ∨ cfg = .null ∨ jsTypeof cfg ≠ "object" ∨
    (∃ xs, cfg = .arr xs) ∨
    ∃ entries, cfg = .obj entries ∧ ∃ kv ∈ entries, BadEntryVal kv.2

/-! ### Buffering flush worker
(src/helper/compress_transport-stream-worker.js:14-36)

The worker keeps `logBuffer` and a `flushing` flag.  On a `message`, the log
is pushed and, when not flushing, a `setTimeout(flushLogs, 100)` is armed
(we count armed timers).  `flushLogs` is a no-op when already flushing or
when the buffer is empty; otherwise it splices the whole buffer, joins it
and writes it to the stream, and the write-completion callback clears
`flushing`.  We track outstanding writes (`inFlight`) so that the
write-completion event is only meaningful while a write is pending, and the
sink as the list of payloads passed to `stream.write`. -/

structure WState where
  logBuffer : List String
  flushing : Bool
  timers : Nat
  inFlight : Nat
  sink : List String
deriving Repr, DecidableEq

/-- The idle worker at startup: empty buffer, not flushing, no timer armed,
nothing written. -/
def initW : WState := ⟨[], false, 0, 0, []⟩

/-- `flushLogs` (src/helper/compress_transport-stream-worker.js:18-26):
return if flushing or the buffer is empty; otherwise set `flushing`, splice
the whole buffer, join it and hand the payload to `stream.write` (one more
write in flight). -/
def flushLogs (s : WState) : WState :=
  if s.flushing || s.logBuffer.isEmpty then s
  else
    ⟨[], true, s.timers, s.inFlight + 1, s.sink ++ [String.join s.logBuffer]⟩

/-- Events the worker's event loop processes: an incoming `message`, a
`setTimeout` callback firing, and the completion callback of a
`stream.write`. -/
inductive WEvent where
  | message (log : String)
  | timerFire
  | writeComplete
deriving Repr, DecidableEq

/-- One event-loop step (src/helper/compress_transport-stream-worker.js:23-33):
a message pushes the log and arms a timer unless flushing; a firing timer
runs `flushLogs`; a completing write clears `flushing`. -/
def stepW (s : WState) : WEvent → WState
  | .message log =>
    if s.flushing then
      ⟨s.logBuffer ++ [log], s.flushing, s.timers, s.inFlight, s.sink⟩
    else
      ⟨s.logBuffer ++ [log], s.flushing, s.timers + 1, s.inFlight, s.sink⟩
  | .timerFire =>
    if s.timers = 0 then s
    else flushLogs ⟨s.logBuffer, s.flushing, s.timers - 1, s.inFlight, s.sink⟩
  | .writeComplete =>
    if s.inFlight = 0 then s
    else ⟨s.logBuffer, false, s.timers, s.inFlight - 1, s.sink⟩

/-- Run the worker's event loop over a list of events. -/
def runW (s : WState) : List WEvent → WState
  | [] => s
  | e :: es => runW (stepW s e) es

/-- The `process.on("exit", flushLogs)` hook
(src/helper/compress_transport-stream-worker.js:36): at process exit,
`flushLogs` runs once on the worker's current state. -/
def onExit (s : WState) : WState := flushLogs s

/-! ### Transport configuration
(`createTransportConfig`, src/utils/pino_util.js:118-153) -/

/-- One pino transport target: the target module, its optional minimum
level, and its optional file destination. -/
structure Target where
  target : String
  level : Option String
  destination : Option String
deriving Repr, DecidableEq

/-- `createTransportConfig` (src/utils/pino_util.js:118-153).  The source
computes the date inside the function
(`new Date().toISOString().split("T")[0]`); we pass the current date string
explicitly. -/
def createTransportConfig (category date : String) : List Target :=
  [ ⟨"pino-pretty", none, none⟩,
    ⟨"pino/file", some "error",
      some ("./logs/" ++ category ++ "/errors/error-" ++ date ++ ".log")⟩,
    ⟨"pino/file", some "warn",
      some ("./logs/" ++ category ++ "/warnings/warn-" ++ date ++ ".log")⟩,
    ⟨"pino/file", some "info",
      some ("./logs/" ++ category ++ "/info/info-" ++ date ++ ".log")⟩ ]

/-- Modelled from the spec: the file destination template claim C8 asserts,
`./logs/<category>/<level>/<level>-<YYYY-MM-DD>.log` (§6 "Log file layout").
Used only to compare with `createTransportConfig`. -/
def claimedDestination (category level date : String) : String :=
  "./logs/" ++ category ++ "/" ++ level ++ "/" ++ level ++ "-" ++ date ++ ".log"

/-! ### Logger level filtering (`createLogger`, src/utils/pino_util.js:163-196)

`createLogger` fixes `level: "debug"` in the pino options
(src/utils/pino_util.js:166).  Pino's standard numeric levels and its level
gate (an entry is processed only when its level value is at least the
logger's level value; a target only receives entries at or above its own
`level` option) are library semantics, modelled from the spec's router rule
(§4.4 "Delivers entry to every target where target.minLevel ≤ entry.level")
together with pino's documented logger-level filter. -/

/-- Pino's standard numeric level values. -/
def levelValue : String → Nat
  | "trace" => 10
  | "debug" => 20
  | "info" => 30
  | "warn" => 40
  | "error" => 50
  | "fatal" => 60
  | _ => 0

/-- The logger level fixed by `createLogger` (src/utils/pino_util.js:166). -/
def loggerLevel : String := "debug"

/-- Modelled from the spec: which transport targets receive an entry logged
at `method` — none when the logger-level gate rejects it, otherwise every
target whose minimum level (defaulting to the logger's) admits it. -/
def pinoDeliver (method : String) (targets : List Target) : List Target :=
  if levelValue method < levelValue loggerLevel then []
  else targets.filter (fun t => levelValue (t.level.getD loggerLevel) ≤ levelValue method)

/-- The full pipeline for one wrapped logger call with a file-backed logger
of category `category`: validation, then pino dispatch to the configured
targets; the result is the list of targets that receive the entry. -/
def deliveredTargets (schema : Schema) (loggerKey method category date : String)
    (metadata : JsVal) : List Target :=
  match validateMetadata loggerKey method schema metadata with
  | .error _ => []
  | .ok _ => pinoDeliver method (createTransportConfig category date)

/-! ### Redaction filter

`createLogger` configures pino's redaction with the schema's paths and the
censor `"[Redacted]"` (src/utils/pino_util.js:180-184); the masking itself is
performed by the pino library.  Modelled from the spec (§4.2): for each
dot-path present in the entry, replace the value with the fixed sentinel;
absent paths are no-ops.  Entries are JSON-like trees; a dot-path is the
list of its segments. -/

/-- A JSON-like log entry value: a leaf or an object of named children. -/
inductive Jx where
  | leaf (s : String)
  | node (fields : List (String × Jx))

/-- The censor configured in `createLogger` (src/utils/pino_util.js:183). -/
def sentinel : Jx := .leaf "[Redacted]"

/-- Look up the subtree at a dot-path, if the path is present. -/
def getPath : List String → Jx → Option Jx
  | [], v => some v
  | k :: ks, .node fields =>
    match fields.lookup k with
    | some v => getPath ks v
    | none => none
  | _ :: _, .leaf _ => none

/-- Apply `f` to the value of the first field named `k`, if any. -/
def setEntry (k : String) (f : Jx → Jx) : List (String × Jx) → List (String × Jx)
  | [] => []
  | (k', v) :: rest =>
    if k' = k then (k', f v) :: rest else (k', v) :: setEntry k f rest

/-- Replace the subtree at a dot-path with `nv`; absent paths leave the
entry unchanged. -/
def setPath : List String → Jx → Jx → Jx
  | [], nv, _ => nv
  | k :: ks, nv, .node fields => .node (setEntry k (setPath ks nv) fields)
  | _ :: _, _, .leaf s => .leaf s

/-- Modelled from the spec (§4.2): redact one configured dot-path — replace
its value with the sentinel when present, no-op when absent. -/
def redactOne (p : List String) (e : Jx) : Jx := setPath p sentinel e

/-- Modelled from the spec (§4.2): apply redaction for every configured
path, in order. -/
def redactList : List (List String) → Jx → Jx
  | [], e => e
  | p :: ps, e => redactList ps (redactOne p e)

/-! ### Rotating sink retention

The rotating/compressing sink is the `rotating-file-stream` library, which
the worker configures with `maxFiles: limit`
(src/helper/compress_transport-stream-worker.js:6-12).  Modelled from the
spec (§4.6): each rotation appends the just-closed file as the newest
backup; when the backups exceed the configured limit, the oldest (by
rotation order) is evicted. -/

structure SinkState where
  backups : List Nat
  rotations : Nat
deriving Repr, DecidableEq

/-- Modelled from the spec (§4.6): one rotation — append the new backup
(identified by its rotation index), then evict the oldest while over the
retention limit. -/
def rotateOnce (limit : Nat) (s : SinkState) : SinkState :=
  let bs := s.backups ++ [s.rotations]
  ⟨if limit < bs.length then bs.tail else bs, s.rotations + 1⟩

/-- `n` rotations from a fresh sink with no backups. -/
def rotateN (limit : Nat) : Nat → SinkState
  | 0 => ⟨[], 0⟩
  | n + 1 => rotateOnce limit (rotateN limit n)

/-! ## Theorems -/

/-- The code's "absent or not an object" guard
(`!metadata || typeof metadata !== "object"`) coincides with the spec's
reading: metadata is `undefined`, `null`, or of a non-object `typeof`. -/
theorem absent_guard_eq (md : JsVal) :
    (!truthy md || jsTypeof md != "object") =
      (match md with
       | JsVal.undefined => true
       | JsVal.null => true
       | _ => jsTypeof md != "object") := by
  cases md <;> simp [truthy, jsTypeof]

/-- C1: for every loggerKey, level and fields argument, `validateMetadata`
succeeds exactly when the spec's validator does; when it fails, the fields
it names are exactly those the spec's validator computes (all of `R` when
fields is absent or not an object, otherwise `R` minus the keys present);
and when `R` is empty it succeeds for every fields value. -/
theorem validateMetadata_matches_spec :
    ∀ (loggerKey method : String) (schema : Schema) (metadata : JsVal),
      (validateMetadata loggerKey method schema metadata = .ok () ↔
        validateAsSpec loggerKey method schema metadata = .ok ())
      ∧ (∀ e, validateMetadata loggerKey method schema metadata = .error e →
          validateAsSpec loggerKey method schema metadata = .error e.listed)
      ∧ (requiredOf schema loggerKey method = [] →
          validateMetadata loggerKey method schema metadata = .ok ()) := by
  intro k m sch md
  refine ⟨?_, ?_, ?_⟩
  · unfold validateMetadata validateAsSpec
    rw [absent_guard_eq]
    by_cases habs : (match md with
      | JsVal.undefined => true
      | JsVal.null => true
      | _ => jsTypeof md != "object") = true
    · cases hR : requiredOf sch k m <;> simp [habs, hR]
    · simp only [habs, Bool.false_eq_true, if_false]
      cases hf : List.filter (fun field => !hasKey md field)
          (requiredOf sch k m) <;>
        simp [hf]
  · unfold validateMetadata validateAsSpec
    rw [absent_guard_eq]
    by_cases habs : (match md with
      | JsVal.undefined => true
      | JsVal.null => true
      | _ => jsTypeof md != "object") = true
    · cases hR : requiredOf sch k m <;> simp [habs, hR]
    · simp only [habs, Bool.false_eq_true, if_false]
      cases hf : List.filter (fun field => !hasKey md field)
          (requiredOf sch k m) <;>
        simp [hf]
  · intro hR
    unfold validateMetadata
    simp [hR]

/-- A concrete schema in the shape of loggers.json: `authLogger` requires
`code` and `context` on `error`. -/
def demoSchema : Schema := [("authLogger", [("error", ["code", "context"])])]

/-- Witness for C1: on a concrete schema and metadata missing `context`,
the validator fails listing exactly `context`. -/
theorem validateMetadata_matches_spec_witness :
    validateAsSpec "authLogger" "error" demoSchema
        (.obj [("code", .str "AUTH")]) = .error ["context"] :=
  (validateMetadata_matches_spec "authLogger" "error" demoSchema
      (.obj [("code", .str "AUTH")])).2.1
    ⟨"Missing required fields for authLogger.error: context", ["context"]⟩
    (by rfl)

/-- C2: for every wrapped logger method and call, a validation failure is
raised synchronously to the caller and the underlying method is never
invoked; a validation success invokes the underlying method exactly once
with the caller's arguments unchanged. -/
theorem wrappedCall_validates_then_dispatches :
    ∀ (schema : Schema) (loggerKey method : String) (metadata : JsVal)
      (msg : String) (args : List JsVal),
      (∀ e, validateMetadata loggerKey method schema metadata = .error e →
        wrappedCall schema loggerKey method metadata msg args = .raised e ∧
          ∀ call, wrappedCall schema loggerKey method metadata msg args ≠
            .dispatched call)
      ∧ (validateMetadata loggerKey method schema metadata = .ok () →
        wrappedCall schema loggerKey method metadata msg args =
          .dispatched ⟨metadata, msg, args⟩) := by
  intro sch k m md msg args
  constructor
  · intro e he
    constructor
    · simp [wrappedCall, he]
    · intro call
      simp [wrappedCall, he]
  · intro h
    simp [wrappedCall, h]

/-- Witness for C2: a failing call raises and a passing call dispatches the
caller's arguments unchanged, on concrete inputs. -/
theorem wrappedCall_validates_then_dispatches_witness :
    wrappedCall demoSchema "authLogger" "error"
        (.obj [("code", .str "A")]) "boom" [] =
      .raised ⟨"Missing required fields for authLogger.error: context",
        ["context"]⟩ ∧
    wrappedCall demoSchema "authLogger" "error"
        (.obj [("code", .str "A"), ("context", .str "c")]) "ok" [] =
      .dispatched ⟨.obj [("code", .str "A"), ("context", .str "c")], "ok", []⟩ :=
  ⟨((wrappedCall_validates_then_dispatches demoSchema "authLogger" "error"
      (.obj [("code", .str "A")]) "boom" []).1
      ⟨"Missing required fields for authLogger.error: context", ["context"]⟩
      (by rfl)).1,
   (wrappedCall_validates_then_dispatches demoSchema "authLogger" "error"
      (.obj [("code", .str "A"), ("context", .str "c")]) "ok" []).2 (by rfl)⟩

/-- A `BadEntryVal` value makes `checkEntry` throw. -/
theorem checkEntry_isSome_of_bad (k : String) (v : JsVal) (h : BadEntryVal v) :
    (checkEntry k v).isSome := by
  rcases h with h | h | h
  · simp [checkEntry, bne_iff_ne, h]
  · subst h
    rfl
  · cases v <;> simp [checkEntry, jsTypeof, truthy, h]

/-- If some entry is bad, the entry scan of `validateLoggerConfig` throws. -/
theorem firstEntryError_isSome (entries : List (String × JsVal))
    (h : ∃ kv ∈ entries, BadEntryVal kv.2) :
    (firstEntryError entries).isSome := by
  induction entries with
  | nil => simp at h
  | cons hd tl ih =>
    obtain ⟨k, v⟩ := hd
    rcases h with ⟨kv, hkv, hbad⟩
    cases hchk : checkEntry k v with
    | some m => simp [firstEntryError, hchk]
    | none =>
      rcases List.mem_cons.mp hkv with rfl | hmem
      · exact absurd (checkEntry_isSome_of_bad k v hbad) (by simp [hchk])
      · have := ih ⟨kv, hmem, hbad⟩
        simpa [firstEntryError, hchk] using this

/-- C7: every malformed logger configuration (missing, not an object, an
array, or containing an entry whose value is not an object or lacks a
category) makes initialization exit the process with a non-zero code, while
a runtime logger call can never exit the process. -/
theorem malformed_config_exits :
    (∀ cfg, MalformedConfig cfg → ∃ c, initModule cfg = .exited c ∧ c ≠ 0)
    ∧ (∀ (schema : Schema) (loggerKey method : String) (metadata : JsVal)
        (msg : String) (args : List JsVal) (c : Nat),
        wrappedCall schema loggerKey method metadata msg args ≠ .exited c) := by
  constructor
  · intro cfg h
    refine ⟨1, ?_, one_ne_zero⟩
    rcases h with rfl | rfl | h | ⟨xs, rfl⟩ | ⟨entries, rfl, hbad⟩
    · rfl
    · rfl
    · cases cfg <;>
        simp_all [initModule, generateLoggers, validateLoggerConfig,
          jsTypeof, truthy, isArray]
    · simp [initModule, generateLoggers, validateLoggerConfig,
        jsTypeof, truthy, isArray]
    · have hs := firstEntryError_isSome entries hbad
      rcases Option.isSome_iff_exists.mp hs with ⟨m, hm⟩
      simp [initModule, generateLoggers, validateLoggerConfig,
        jsTypeof, truthy, isArray, hm]
  · intro sch k m md msg args c
    unfold wrappedCall
    cases validateMetadata k m sch md <;> simp

/-- Witness for C7: an array configuration exits with code 1; a concrete
runtime call does not exit. -/
theorem malformed_config_exits_witness :
    (∃ c, initModule (.arr []) = Outcome.exited c ∧ c ≠ 0) ∧
      wrappedCall [] "systemLogger" "info" JsVal.undefined "m" [] ≠
        Outcome.exited 0 :=
  ⟨malformed_config_exits.1 (.arr [])
      (Or.inr (Or.inr (Or.inr (Or.inl ⟨[], rfl⟩)))),
   malformed_config_exits.2 [] "systemLogger" "info" .undefined "m" [] 0⟩

/-- Running an event list splits across append. -/
theorem runW_append (s : WState) (es1 es2 : List WEvent) :
    runW s (es1 ++ es2) = runW (runW s es1) es2 := by
  induction es1 generalizing s with
  | nil => rfl
  | cons e es ih => simp [runW, ih]

/-- Delivering messages to a non-flushing worker with no write in flight
appends them to the buffer and arms one timer each. -/
theorem runW_messages (buf : List String) (t : Nat) (sink0 : List String)
    (ls : List String) :
    runW ⟨buf, false, t, 0, sink0⟩ (ls.map WEvent.message) =
      ⟨buf ++ ls, false, t + ls.length, 0, sink0⟩ := by
  induction ls generalizing buf t with
  | nil => simp [runW]
  | cons l ls ih =>
    simp only [List.map_cons, runW, stepW, if_neg Bool.false_ne_true]
    rw [ih]
    simp [WState.mk.injEq]
    omega

/-- A timer or write-completion event on an empty buffer writes nothing and
keeps the buffer empty. -/
theorem stepW_empty_buffer (s : WState) (e : WEvent)
    (hbuf : s.logBuffer = []) (he : e = .timerFire ∨ e = .writeComplete) :
    (stepW s e).logBuffer = [] ∧ (stepW s e).sink = s.sink := by
  rcases he with rfl | rfl
  · by_cases ht : s.timers = 0 <;> simp [stepW, flushLogs, hbuf, ht]
  · by_cases hf : s.inFlight = 0 <;> simp [stepW, hbuf, hf]

/-- Once the buffer is drained, any sequence of timer and write-completion
events leaves the sink unchanged. -/
theorem runW_no_more_writes (s : WState) (es : List WEvent)
    (hbuf : s.logBuffer = [])
    (hes : ∀ e ∈ es, e = .timerFire ∨ e = .writeComplete) :
    (runW s es).sink = s.sink := by
  induction es generalizing s with
  | nil => rfl
  | cons e es ih =>
    obtain ⟨h1, h2⟩ := stepW_empty_buffer s e hbuf (hes e (by simp))
    have h3 := ih (stepW s e) h1 (fun e' he' => hes e' (by simp [he']))
    simp only [runW]
    rw [h3, h2]

/-- From a pre-flush state (non-empty buffer, not flushing, a timer armed,
no write in flight, nothing written), timer and write-completion events
produce exactly the one batched write. -/
theorem runW_preflush (ls : List String) (t : Nat)
    (hne : ls ≠ []) (ht : t ≠ 0) :
    ∀ (rest : List WEvent),
      (∀ e ∈ rest, e = .timerFire ∨ e = .writeComplete) →
      WEvent.timerFire ∈ rest →
      (runW ⟨ls, false, t, 0, []⟩ rest).sink = [String.join ls] := by
  intro rest
  induction rest with
  | nil =>
    intro _ h
    simp at h
  | cons e es ih =>
    intro hall htf
    rcases hall e (by simp) with rfl | rfl
    · have hstep : stepW ⟨ls, false, t, 0, []⟩ .timerFire =
          ⟨[], true, t - 1, 1, [String.join ls]⟩ := by
        simp [stepW, flushLogs, ht, hne]
      simp only [runW, hstep]
      exact runW_no_more_writes ⟨[], true, t - 1, 1, [String.join ls]⟩ es rfl
        (fun e' he' => hall e' (by simp [he']))
    · have hstep : stepW ⟨ls, false, t, 0, []⟩ .writeComplete =
          ⟨ls, false, t, 0, []⟩ := by
        simp [stepW]
      simp only [runW, hstep]
      refine ih (fun e' he' => hall e' (by simp [he'])) ?_
      rcases List.mem_cons.mp htf with h | h
      · exact absurd h (by simp)
      · exact h

/-- C3: starting from the idle worker with an empty queue, if N ≥ 1 logs are
enqueued before any timer fires, then once the timers fire (in any
interleaving with write completions) exactly one flush write occurs, whose
payload is the concatenation of all N logs in enqueue order. -/
theorem batch_flush_single_write :
    ∀ (ls : List String) (rest : List WEvent),
      ls ≠ [] →
      (∀ e ∈ rest, e = .timerFire ∨ e = .writeComplete) →
      WEvent.timerFire ∈ rest →
      (runW initW (ls.map WEvent.message ++ rest)).sink = [String.join ls] := by
  intro ls rest hne hrest htf
  rw [runW_append]
  have hmsgs : runW initW (ls.map WEvent.message) =
      ⟨ls, false, ls.length, 0, []⟩ := by
    have := runW_messages [] 0 [] ls
    simpa [initW] using this
  rw [hmsgs]
  exact runW_preflush ls ls.length hne
    (by simpa [← List.length_eq_zero] using hne) rest hrest htf

/-- Witness for C3: two logs enqueued, then the two timers fire around the
write completion; the sink receives the single concatenated payload. -/
theorem batch_flush_single_write_witness :
    (runW initW ([ "a", "b" ].map WEvent.message ++
      [WEvent.timerFire, WEvent.writeComplete, WEvent.timerFire])).sink =
      [String.join ["a", "b"]] :=
  batch_flush_single_write ["a", "b"]
    [WEvent.timerFire, WEvent.writeComplete, WEvent.timerFire]
    (by simp) (by simp) (by simp)

/-- The at-most-one-flush invariant of claim C5: never more than one write
in flight, and the `flushing` flag is set exactly while one is. -/
def WInv (s : WState) : Prop :=
  s.inFlight ≤ 1 ∧ (s.flushing = true ↔ s.inFlight = 1)

/-- Every event-loop step preserves the single-flush invariant. -/
theorem stepW_preserves_inv (s : WState) (e : WEvent) (h : WInv s) :
    WInv (stepW s e) := by
  obtain ⟨h1, h2⟩ := h
  cases e with
  | message log =>
    by_cases hf : s.flushing = true
    · have hstep : stepW s (.message log) =
          ⟨s.logBuffer ++ [log], s.flushing, s.timers, s.inFlight, s.sink⟩ := by
        simp [stepW, hf]
      rw [hstep]; exact ⟨h1, h2⟩
    · have hstep : stepW s (.message log) =
          ⟨s.logBuffer ++ [log], s.flushing, s.timers + 1, s.inFlight, s.sink⟩ := by
        simp [stepW, hf]
      rw [hstep]; exact ⟨h1, h2⟩
  | timerFire =>
    by_cases ht : s.timers = 0
    · have hstep : stepW s .timerFire = s := by simp [stepW, ht]
      rw [hstep]; exact ⟨h1, h2⟩
    · by_cases hf : s.flushing = true
      · have hstep : stepW s .timerFire =
            ⟨s.logBuffer, s.flushing, s.timers - 1, s.inFlight, s.sink⟩ := by
          simp [stepW, flushLogs, ht, hf]
        rw [hstep]; exact ⟨h1, h2⟩
      · by_cases hb : s.logBuffer.isEmpty = true
        · have hstep : stepW s .timerFire =
              ⟨s.logBuffer, s.flushing, s.timers - 1, s.inFlight, s.sink⟩ := by
            simp [stepW, flushLogs, ht, hf, hb]
          rw [hstep]; exact ⟨h1, h2⟩
        · have h0 : s.inFlight = 0 := by
            have hne1 : s.inFlight ≠ 1 := fun hq => hf (h2.mpr hq)
            omega
          have hstep : stepW s .timerFire =
              ⟨[], true, s.timers - 1, s.inFlight + 1,
                s.sink ++ [String.join s.logBuffer]⟩ := by
            simp [stepW, flushLogs, ht, hf, hb]
          rw [hstep]
          exact ⟨by simp [h0], by simp [h0]⟩
  | writeComplete =>
    by_cases hf : s.inFlight = 0
    · have hstep : stepW s .writeComplete = s := by simp [stepW, hf]
      rw [hstep]; exact ⟨h1, h2⟩
    · have hstep : stepW s .writeComplete =
          ⟨s.logBuffer, false, s.timers, s.inFlight - 1, s.sink⟩ := by
        simp [stepW, hf]
      rw [hstep]
      have h1' : s.inFlight = 1 := by omega
      exact ⟨by simp [h1'], by simp [h1']⟩

/-- C5: in every reachable worker state at most one flush is in progress
(the `flushing` flag tracks exactly one in-flight write); a timer firing
while flushing or with an empty queue changes neither buffer, flag, sink,
nor in-flight count; and a step can only add a write to the sink from a
state whose `flushing` flag is false. -/
theorem at_most_one_flush :
    (∀ es : List WEvent, WInv (runW initW es))
    ∧ (∀ s : WState, s.flushing = true ∨ s.logBuffer = [] →
        (stepW s .timerFire).logBuffer = s.logBuffer ∧
        (stepW s .timerFire).flushing = s.flushing ∧
        (stepW s .timerFire).inFlight = s.inFlight ∧
        (stepW s .timerFire).sink = s.sink)
    ∧ (∀ (s : WState) (e : WEvent),
        (stepW s e).sink ≠ s.sink → s.flushing = false) := by
  refine ⟨?_, ?_, ?_⟩
  · have hrun : ∀ (es : List WEvent) (s : WState), WInv s → WInv (runW s es) := by
      intro es
      induction es with
      | nil => intro s hs; exact hs
      | cons e es ih =>
        intro s hs
        exact ih (stepW s e) (stepW_preserves_inv s e hs)
    intro es
    exact hrun es initW ⟨by simp [initW], by simp [initW]⟩
  · intro s h
    rcases h with h | h
    · by_cases ht : s.timers = 0 <;> simp [stepW, flushLogs, ht, h]
    · by_cases ht : s.timers = 0 <;> simp [stepW, flushLogs, ht, h]
  · intro s e h
    cases e with
    | message log =>
      by_cases hf : s.flushing <;> simp [stepW, hf] at h
    | timerFire =>
      by_cases ht : s.timers = 0
      · simp [stepW, ht] at h
      · by_cases hf : s.flushing
        · simp [stepW, ht, flushLogs, hf] at h
        · simpa using hf
    | writeComplete =>
      by_cases hf : s.inFlight = 0 <;> simp [stepW, hf] at h

/-- Witness for C5: the invariant holds after a concrete trace, a timer
firing mid-flush is a no-op, and a message step never writes. -/
theorem at_most_one_flush_witness :
    WInv (runW initW [WEvent.message "a", WEvent.timerFire])
    ∧ (stepW ⟨["b"], true, 1, 1, ["a"]⟩ .timerFire).sink = ["a"]
    ∧ (⟨["b"], false, 1, 0, []⟩ : WState).flushing = false :=
  ⟨at_most_one_flush.1 [WEvent.message "a", WEvent.timerFire],
   (at_most_one_flush.2.1 ⟨["b"], true, 1, 1, ["a"]⟩ (Or.inl rfl)).2.2.2,
   at_most_one_flush.2.2 ⟨["b"], false, 1, 0, []⟩ .timerFire (by decide)⟩

/-- C4 (exhibiting the code's divergence from the claim): after the
reachable trace «message "a", timer fires, message "b"», the flush of "a" is
still in progress and "b" is pending; the `process.on("exit", flushLogs)`
hook then returns unchanged because `flushing` is set, so after shutdown the
sink holds only "a" and the pending entry "b" is lost. -/
theorem exit_hook_drops_pending_during_flush :
    (runW initW [WEvent.message "a", WEvent.timerFire,
      WEvent.message "b"]).logBuffer = ["b"]
    ∧ (runW initW [WEvent.message "a", WEvent.timerFire,
        WEvent.message "b"]).flushing = true
    ∧ onExit (runW initW [WEvent.message "a", WEvent.timerFire,
        WEvent.message "b"]) =
      runW initW [WEvent.message "a", WEvent.timerFire, WEvent.message "b"]
    ∧ (onExit (runW initW [WEvent.message "a", WEvent.timerFire,
        WEvent.message "b"])).sink = ["a"] :=
  ⟨rfl, rfl, rfl, rfl⟩

/-- C8 counterexample: the error file target for category `usage` on
2026-10-11 writes to `./logs/usage/errors/error-2026-10-11.log`, which is
not the claimed `./logs/<category>/<level>/<level>-<date>.log` path, and no
configured target writes to the claimed path. -/
theorem transport_dest_not_per_level :
    (createTransportConfig "usage" "2026-10-11")[1]? =
      some ⟨"pino/file", some "error",
        some "./logs/usage/errors/error-2026-10-11.log"⟩
    ∧ "./logs/usage/errors/error-2026-10-11.log" ≠
        claimedDestination "usage" "error" "2026-10-11"
    ∧ (createTransportConfig "usage" "2026-10-11").all
        (fun t => t.destination !=
          some (claimedDestination "usage" "error" "2026-10-11")) = true :=
  ⟨rfl, by decide, by decide⟩

/-- The folder/prefix layout the code actually uses: directory `errors`,
`warnings` or `info` and file prefix `error`, `warn` or `info` for the
respective minimum level. -/
def actualDestination (category level date : String) : String :=
  let middle :=
    if level = "error" then "/errors/error-"
    else if level = "warn" then "/warnings/warn-"
    else "/info/info-"
  "./logs/" ++ category ++ middle ++ date ++ ".log"

/-- C8 amended: every file target of `createTransportConfig` writes to
`./logs/<category>/<folder>/<level>-<date>.log` where `<folder>` is
`errors`, `warnings` or `info` for minimum level `error`, `warn` or `info`;
an error-level entry for category `usage` is delivered to the errors file
target of the current date. -/
theorem transport_dest_layout :
    ∀ category date : String,
      (∀ t ∈ createTransportConfig category date, ∀ lv, t.level = some lv →
        t.destination = some (actualDestination category lv date))
      ∧ ⟨"pino/file", some "error",
          some ("./logs/" ++ category ++ "/errors/error-" ++ date ++ ".log")⟩ ∈
            pinoDeliver "error" (createTransportConfig category date) := by
  intro category date
  constructor
  · intro t ht lv hlv
    simp [createTransportConfig] at ht
    rcases ht with rfl | rfl | rfl | rfl
    · simp at hlv
    · simp at hlv
      simp [actualDestination, ← hlv]
    · simp at hlv
      simp [actualDestination, ← hlv]
    · simp at hlv
      simp [actualDestination, ← hlv]
  · simp [pinoDeliver, createTransportConfig, levelValue, loggerLevel]

/-- Witness for C8's amended claim: the concrete usage/error target and its
delivery on a concrete date. -/
theorem transport_dest_layout_witness :
    (⟨"pino/file", some "error",
        some "./logs/usage/errors/error-2026-10-11.log"⟩ : Target).destination =
      some (actualDestination "usage" "error" "2026-10-11")
    ∧ ⟨"pino/file", some "error",
        some "./logs/usage/errors/error-2026-10-11.log"⟩ ∈
          pinoDeliver "error" (createTransportConfig "usage" "2026-10-11") :=
  ⟨(transport_dest_layout "usage" "2026-10-11").1
      ⟨"pino/file", some "error",
        some "./logs/usage/errors/error-2026-10-11.log"⟩
      (by decide) "error" rfl,
   (transport_dest_layout "usage" "2026-10-11").2⟩

/-- C10: the factory wraps and exposes a `trace` method, but the logger
level is fixed at `debug`, whose value exceeds `trace`'s, so a trace call
whose metadata passes validation is delivered to no target at all. -/
theorem trace_never_delivered :
    "trace" ∈ wrapMethods
    ∧ levelValue "trace" < levelValue loggerLevel
    ∧ (∀ (schema : Schema) (loggerKey category date : String) (metadata : JsVal),
        validateMetadata loggerKey "trace" schema metadata = .ok () →
        deliveredTargets schema loggerKey "trace" category date metadata = []) := by
  refine ⟨by decide, by decide, ?_⟩
  intro sch k c d md h
  simp [deliveredTargets, h, pinoDeliver, levelValue, loggerLevel]

/-- Witness for C10: a concrete valid trace call reaches no sink. -/
theorem trace_never_delivered_witness :
    deliveredTargets demoSchema "systemLogger" "trace" "system" "2026-10-11"
      (.obj []) = [] :=
  trace_never_delivered.2.2 demoSchema "systemLogger" "system" "2026-10-11"
    (.obj []) (by rfl)

/-! #### Path lemmas for the redaction filter -/

/-- Looking up the key just updated by `setEntry` sees the update. -/
theorem lookup_setEntry_self (k : String) (f : Jx → Jx)
    (fs : List (String × Jx)) :
    (setEntry k f fs).lookup k = (fs.lookup k).map f := by
  induction fs with
  | nil => rfl
  | cons hd tl ih =>
    obtain ⟨k', v⟩ := hd
    by_cases hk : k' = k
    · subst hk
      simp [setEntry, List.lookup]
    · have hbf : (k == k') = false := beq_eq_false_iff_ne.mpr (Ne.symm hk)
      simp [setEntry, hk, List.lookup, hbf, ih]

/-- Looking up a different key is unaffected by `setEntry`. -/
theorem lookup_setEntry_other (k k₀ : String) (hne : k ≠ k₀) (f : Jx → Jx)
    (fs : List (String × Jx)) :
    (setEntry k₀ f fs).lookup k = fs.lookup k := by
  induction fs with
  | nil => rfl
  | cons hd tl ih =>
    obtain ⟨k', v⟩ := hd
    by_cases hk : k' = k₀
    · subst hk
      have hbf : (k == k') = false := beq_eq_false_iff_ne.mpr hne
      simp [setEntry, List.lookup, hbf, ih]
    · by_cases hkk : k = k'
      · subst hkk
        simp [setEntry, hk, List.lookup]
      · have hbf : (k == k') = false := beq_eq_false_iff_ne.mpr hkk
        simp [setEntry, hk, List.lookup, hbf, ih]

/-- `setEntry` on a key that is not present is the identity. -/
theorem setEntry_lookup_none (k : String) (f : Jx → Jx)
    (fs : List (String × Jx)) (h : fs.lookup k = none) :
    setEntry k f fs = fs := by
  induction fs with
  | nil => rfl
  | cons hd tl ih =>
    obtain ⟨k', v⟩ := hd
    by_cases hk : k' = k
    · subst hk
      simp [List.lookup] at h
    · have hbf : (k == k') = false := beq_eq_false_iff_ne.mpr (Ne.symm hk)
      simp only [List.lookup, hbf] at h
      simp [setEntry, hk, ih h]

/-- `setEntry` with a function that fixes the present value is the
identity. -/
theorem setEntry_lookup_some (k : String) (f : Jx → Jx)
    (fs : List (String × Jx)) (v : Jx) (hlk : fs.lookup k = some v)
    (hf : f v = v) : setEntry k f fs = fs := by
  induction fs with
  | nil => simp [List.lookup] at hlk
  | cons hd tl ih =>
    obtain ⟨k', w⟩ := hd
    by_cases hk : k' = k
    · subst hk
      simp [List.lookup] at hlk
      subst hlk
      simp [setEntry, hf]
    · have hbf : (k == k') = false := beq_eq_false_iff_ne.mpr (Ne.symm hk)
      simp only [List.lookup, hbf] at hlk
      simp [setEntry, hk, ih hlk]

/-- Reading back the path just set: present paths now hold the new value,
absent paths stay absent. -/
theorem getPath_setPath_self (p : List String) (nv e : Jx) :
    getPath p (setPath p nv e) = (getPath p e).map (fun _ => nv) := by
  induction p generalizing e with
  | nil => rfl
  | cons k ks ih =>
    cases e with
    | leaf s => rfl
    | node fs =>
      simp only [setPath, getPath, lookup_setEntry_self]
      cases hlk : fs.lookup k with
      | none => rfl
      | some v => simp [ih]

/-- Setting an absent path is the identity. -/
theorem setPath_of_getPath_none (p : List String) (nv e : Jx)
    (h : getPath p e = none) : setPath p nv e = e := by
  induction p generalizing e with
  | nil => simp [getPath] at h
  | cons k ks ih =>
    cases e with
    | leaf s => rfl
    | node fs =>
      cases hlk : fs.lookup k with
      | none =>
        simp only [setPath]
        rw [setEntry_lookup_none k (setPath ks nv) fs hlk]
      | some v =>
        have h' : getPath ks v = none := by simpa [getPath, hlk] using h
        simp only [setPath]
        rw [setEntry_lookup_some k (setPath ks nv) fs v hlk (ih v h')]

/-- Setting a present path to the value it already holds is the identity. -/
theorem setPath_of_getPath_some (p : List String) (e v : Jx)
    (h : getPath p e = some v) : setPath p v e = e := by
  induction p generalizing e with
  | nil =>
    simp [getPath] at h
    subst h
    rfl
  | cons k ks ih =>
    cases e with
    | leaf s => simp [getPath] at h
    | node fs =>
      cases hlk : fs.lookup k with
      | none => simp [getPath, hlk] at h
      | some w =>
        have h' : getPath ks w = some v := by simpa [getPath, hlk] using h
        simp only [setPath]
        rw [setEntry_lookup_some k (setPath ks v) fs w hlk (ih w h')]

/-- `getPath` splits across path concatenation. -/
theorem getPath_append (p q : List String) (e : Jx) :
    getPath (p ++ q) e = (getPath p e).bind (getPath q) := by
  induction p generalizing e with
  | nil => rfl
  | cons k ks ih =>
    cases e with
    | leaf s => rfl
    | node fs =>
      simp only [List.cons_append, getPath]
      cases hlk : fs.lookup k with
      | none => rfl
      | some v => simp [ih]

/-- Setting one path does not disturb reads along an incomparable path
(neither path an initial segment of the other). -/
theorem getPath_setPath_incomp (p q : List String) (nv e : Jx)
    (h1 : ¬∃ r, q = p ++ r) (h2 : ¬∃ r, p = q ++ r) :
    getPath p (setPath q nv e) = getPath p e := by
  induction q generalizing p e with
  | nil => exact absurd ⟨p, rfl⟩ h2
  | cons b qs ih =>
    cases p with
    | nil => exact absurd ⟨b :: qs, rfl⟩ h1
    | cons a ps =>
      cases e with
      | leaf s => rfl
      | node fs =>
        by_cases hab : a = b
        · subst hab
          simp only [setPath, getPath, lookup_setEntry_self]
          cases hlk : fs.lookup a with
          | none => rfl
          | some v =>
            have h1' : ¬∃ r, qs = ps ++ r := by
              rintro ⟨r, hr⟩
              exact h1 ⟨r, by rw [List.cons_append, hr]⟩
            have h2' : ¬∃ r, ps = qs ++ r := by
              rintro ⟨r, hr⟩
              exact h2 ⟨r, by rw [List.cons_append, hr]⟩
            simpa using ih ps v h1' h2'
        · simp only [setPath, getPath]
          rw [lookup_setEntry_other a b hab (setPath qs nv) fs]

/-- A path is settled for redaction: absent, or already holding the
sentinel. -/
def RedactedAt (p : List String) (e : Jx) : Prop :=
  getPath p e = none ∨ getPath p e = some sentinel

/-- Redacting a path settles it. -/
theorem redactedAt_redactOne_self (p : List String) (e : Jx) :
    RedactedAt p (redactOne p e) := by
  cases h : getPath p e with
  | none =>
    left
    rw [redactOne, setPath_of_getPath_none p sentinel e h, h]
  | some w =>
    right
    rw [redactOne, getPath_setPath_self, h]
    rfl

/-- Redacting a settled path is the identity. -/
theorem redactOne_of_redactedAt (p : List String) (e : Jx)
    (h : RedactedAt p e) : redactOne p e = e := by
  rcases h with h | h
  · exact setPath_of_getPath_none p sentinel e h
  · exact setPath_of_getPath_some p e sentinel h

/-- Redacting any other path keeps a settled path settled. -/
theorem redactedAt_redactOne (p q : List String) (e : Jx)
    (h : RedactedAt p e) : RedactedAt p (redactOne q e) := by
  by_cases hq : getPath q e = none
  · rw [redactOne, setPath_of_getPath_none q sentinel e hq]
    exact h
  · by_cases hpq : ∃ r, q = p ++ r
    · obtain ⟨r, hr⟩ := hpq
      cases r with
      | nil =>
        simp only [List.append_nil] at hr
        subst hr
        right
        rw [redactOne, getPath_setPath_self]
        rcases Option.ne_none_iff_exists'.mp hq with ⟨w, hw⟩
        rw [hw]
        rfl
      | cons a r' =>
        exfalso
        apply hq
        rcases h with hnone | hsent
        · rw [hr, getPath_append, hnone]
          rfl
        · rw [hr, getPath_append, hsent]
          rfl
    · by_cases hqp : ∃ r, p = q ++ r
      · obtain ⟨r, hr⟩ := hqp
        cases r with
        | nil =>
          exact absurd ⟨[], by simp [hr]⟩ hpq
        | cons a r' =>
          left
          rw [hr, redactOne, getPath_append, getPath_setPath_self]
          rcases Option.ne_none_iff_exists'.mp hq with ⟨w, hw⟩
          rw [hw]
          rfl
      · rcases h with h | h
        · left
          rw [redactOne, getPath_setPath_incomp p q sentinel e hpq hqp]
          exact h
        · right
          rw [redactOne, getPath_setPath_incomp p q sentinel e hpq hqp]
          exact h

/-- A settled path stays settled through a whole redaction pass. -/
theorem redactedAt_redactList (P : List (List String)) (p : List String)
    (e : Jx) (h : RedactedAt p e) : RedactedAt p (redactList P e) := by
  induction P generalizing e with
  | nil => exact h
  | cons q P ih => exact ih (redactOne q e) (redactedAt_redactOne p q e h)

/-- After one redaction pass, every configured path is settled. -/
theorem redactedAt_of_mem (P : List (List String)) (p : List String)
    (hp : p ∈ P) (e : Jx) : RedactedAt p (redactList P e) := by
  induction P generalizing e with
  | nil => cases hp
  | cons q P ih =>
    rcases List.mem_cons.mp hp with rfl | hp'
    · exact redactedAt_redactList P p (redactOne p e)
        (redactedAt_redactOne_self p e)
    · exact ih hp' (redactOne q e)

/-- A redaction pass over entirely settled paths is the identity. -/
theorem redactList_of_redactedAt (P : List (List String)) (e : Jx)
    (h : ∀ p ∈ P, RedactedAt p e) : redactList P e = e := by
  induction P with
  | nil => rfl
  | cons q P ih =>
    have hq : redactOne q e = e :=
      redactOne_of_redactedAt q e (h q (List.mem_cons_self q P))
    simp only [redactList, hq]
    exact ih (fun p hp => h p (List.mem_cons_of_mem q hp))

/-- C6: redaction is idempotent — re-running a redaction pass over the same
path set is a no-op; a configured path present in the entry is replaced by
the `"[Redacted]"` sentinel; an absent path is a no-op. -/
theorem redact_idempotent :
    ∀ (P : List (List String)) (e : Jx),
      redactList P (redactList P e) = redactList P e
      ∧ (∀ p, (getPath p e).isSome →
          getPath p (redactList [p] e) = some sentinel)
      ∧ (∀ p, getPath p e = none → redactList [p] e = e) := by
  intro P e
  refine ⟨?_, ?_, ?_⟩
  · exact redactList_of_redactedAt P (redactList P e)
      (fun p hp => redactedAt_of_mem P p hp e)
  · intro p hp
    rcases Option.isSome_iff_exists.mp hp with ⟨w, hw⟩
    show getPath p (redactOne p e) = some sentinel
    rw [redactOne, getPath_setPath_self, hw]
    rfl
  · intro p hp
    show redactOne p e = e
    exact setPath_of_getPath_none p sentinel e hp

/-- A concrete log entry with a nested sensitive field, as in the demo's
`/user/:id` route. -/
def demoEntry : Jx :=
  .node [("userId", .leaf "42"),
         ("user", .node [("password", .leaf "1234"), ("name", .leaf "ann")])]

/-- Witness for C6: on a concrete entry, double redaction equals single
redaction, the present path is replaced by the sentinel, and an absent path
is a no-op. -/
theorem redact_idempotent_witness :
    redactList [["user", "password"]]
        (redactList [["user", "password"]] demoEntry) =
      redactList [["user", "password"]] demoEntry
    ∧ getPath ["user", "password"]
        (redactList [["user", "password"]] demoEntry) = some sentinel
    ∧ redactList [["missing"]] demoEntry = demoEntry :=
  ⟨(redact_idempotent [["user", "password"]] demoEntry).1,
   (redact_idempotent [["user", "password"]] demoEntry).2.1
     ["user", "password"] (by rfl),
   (redact_idempotent [["missing"]] demoEntry).2.2 ["missing"] (by rfl)⟩

/-- Closed form of the modelled rotation: after `k` rotations with limit
`limit`, the retained backups are the most recent `limit` rotation
indices. -/
theorem rotateN_closed (limit k : Nat) :
    rotateN limit k = ⟨(List.range k).drop (k - limit), k⟩ := by
  induction k with
  | zero => simp [rotateN]
  | succ k ih =>
    have hle : k - limit ≤ (List.range k).length := by
      simp
    have hbs : (List.range k).drop (k - limit) ++ [k] =
        (List.range (k + 1)).drop (k - limit) := by
      rw [List.range_succ, List.drop_append_of_le_length hle]
    rw [rotateN, ih]
    simp only [rotateOnce, hbs]
    by_cases h : limit ≤ k
    · have hlen : limit < ((List.range (k + 1)).drop (k - limit)).length := by
        rw [List.length_drop, List.length_range]
        omega
      rw [if_pos hlen]
      simp only [List.tail_drop]
      have harg : k - limit + 1 = k + 1 - limit := by omega
      rw [harg]
    · have hlen : ¬limit < ((List.range (k + 1)).drop (k - limit)).length := by
        rw [List.length_drop, List.length_range]
        omega
      rw [if_neg hlen]
      have harg : k - limit = k + 1 - limit := by omega
      rw [harg]

/-- C9 (spec-modelled): with retention limit `M`, the first `M` rotations
retain every backup; after `M + 1` rotations exactly `M` backups remain,
namely rotations `1 .. M` — the evicted backup is rotation `0`, the oldest
by rotation order. -/
theorem retention_evicts_oldest :
    ∀ M : Nat,
      (rotateN M M).backups = List.range M
      ∧ (rotateN M (M + 1)).backups.length = M
      ∧ (rotateN M (M + 1)).backups = (List.range (M + 1)).drop 1 := by
  intro M
  refine ⟨?_, ?_, ?_⟩
  · rw [rotateN_closed]
    show (List.range M).drop (M - M) = List.range M
    simp [Nat.sub_self]
  · rw [rotateN_closed]
    show ((List.range (M + 1)).drop (M + 1 - M)).length = M
    rw [List.length_drop, List.length_range]
    omega
  · rw [rotateN_closed]
    show (List.range (M + 1)).drop (M + 1 - M) = (List.range (M + 1)).drop 1
    have harg : M + 1 - M = 1 := by omega
    rw [harg]

end PinoDemo
